import Mathlib

/-!
Verification development for the siliconcompiler orchestration engine
(openroad tool adapter, report/query facade, and manifest store).

The Python sources are embedded shallowly:
  * pure string helpers (`parse_version`, `normalize_version`) become Lean
    functions over `List Char` with `String` wrappers;
  * `post_process` metric derivation becomes functions over an association
    list modelling the flat name-to-value report mapping
    (`reports/metrics.json`); JSON numbers are modelled as rationals, which
    is exact for the comparisons and truncations the code performs;
  * `setup` becomes a function from an abstract configuration record (the
    values the code reads from the chip object) to the list of manifest
    effects (`set`/`add` calls) and log messages it issues, in source order;
  * `get_flowgraph_path` becomes a fuel-indexed worklist loop over an
    association-list flowgraph;
  * the manifest store `set` operation is not under the sources provided,
    so it is modelled from the spec (see `Leaf`).
-/

namespace SC

/-! ## Python string primitives -/

/-- Python `str.split(sep)` for a single-character separator: split at every
occurrence of the separator, keeping empty pieces (`"".split('-') == ['']`). -/
def splitOnChar (c : Char) : List Char → List (List Char)
  | [] => [[]]
  | x :: xs =>
    match splitOnChar c xs with
    | [] => [[]]
    | h :: t => if x = c then [] :: h :: t else (x :: h) :: t

/-- Split at every character satisfying `p`, keeping empty pieces. -/
def splitOnPred (p : Char → Bool) : List Char → List (List Char)
  | [] => [[]]
  | x :: xs =>
    match splitOnPred p xs with
    | [] => [[]]
    | h :: t => if p x then [] :: h :: t else (x :: h) :: t

/-- Python `str.split()` with no argument: split on whitespace runs and
discard the empty pieces. -/
def splitWs (l : List Char) : List (List Char) :=
  (splitOnPred Char.isWhitespace l).filter (fun w => ¬ w.isEmpty)

/-- Python `'-'.join(pieces)`. -/
def joinDash (pieces : List (List Char)) : List Char :=
  List.intercalate ['-'] pieces

/-! ## openroad.py: version handling (`parse_version`, `normalize_version`) -/

/-- `parse_version` from `tools/openroad/openroad.py`:
`version = stdout.split()[-1]`, `pieces = version.split('-')`; if more than
one piece, drop the last piece and rejoin with `'-'`, else return the sole
piece.  Python raises `IndexError` when `stdout.split()` is empty, modelled
by `none`. -/
def parse_versionL (stdout : List Char) : Option (List Char) :=
  (splitWs stdout).getLast?.map fun version =>
    let pieces := splitOnChar '-' version
    if pieces.length > 1 then joinDash pieces.dropLast
    else pieces.headD []

/-- `String` wrapper for `parse_versionL`. -/
def parse_version (stdout : String) : Option String :=
  (parse_versionL stdout.toList).map List.asString

/-- `normalize_version` from `tools/openroad/openroad.py`:
`version.lstrip('v')` when a `'.'` occurs in `version` (Python `lstrip`
removes the whole leading run of `'v'` characters), else the sentinel
`"0"`. -/
def normalize_versionL (version : List Char) : List Char :=
  if '.' ∈ version then version.dropWhile (fun c => c = 'v')
  else ['0']

/-- `String` wrapper for `normalize_versionL`. -/
def normalize_version (version : String) : String :=
  (normalize_versionL version.toList).asString

/-! ## openroad.py: post_process derived metrics

`post_process` parses `reports/metrics.json` into a flat name-to-value
mapping and copies/derives manifest metrics from it.  The mapping is
modelled as an association list from report names to rationals (JSON
numbers; exact for the comparisons and truncations performed here). -/

/-- Association-list lookup, modelling Python dict access (`metrics[k]`)
and membership (`k in metrics`, present iff `isSome`). -/
def alookup {κ β : Type} [DecidableEq κ] (k : κ) : List (κ × β) → Option β
  | [] => none
  | (k2, v) :: rest => if k = k2 then some v else alookup k rest

/-- Python `int(x)` truncates toward zero; on the rational denoted by a
JSON number that is T-division of numerator by denominator. -/
def pyInt (q : ℚ) : ℤ := q.num.tdiv (q.den : ℤ)

/-- The `post_process` table mapping manifest metric names to openroad
report entry names (source order). -/
def metric_mapping : List (String × String) :=
  [("vias", "sc__step__route__vias"),
   ("wirelength", "sc__step__route__wirelength"),
   ("cellarea", "sc__metric__design__instance__area"),
   ("totalarea", "sc__metric__design__core__area"),
   ("utilization", "sc__metric__design__instance__utilization"),
   ("setuptns", "sc__metric__timing__setup__tns"),
   ("holdtns", "sc__metric__timing__hold__tns"),
   ("setupslack", "sc__metric__timing__setup__ws"),
   ("holdslack", "sc__metric__timing__hold__ws"),
   ("setuppaths", "sc__metric__timing__drv__setup_violation_count"),
   ("holdpaths", "sc__metric__timing__drv__hold_violation_count"),
   ("unconstrained", "sc__metric__timing__unconstrained"),
   ("peakpower", "sc__metric__power__total"),
   ("leakagepower", "sc__metric__power__leakage__total"),
   ("pins", "sc__metric__design__io"),
   ("cells", "sc__metric__design__instance__count"),
   ("macros", "sc__metric__design__instance__count__macros"),
   ("nets", "sc__metric__design__nets"),
   ("registers", "sc__metric__design__registers"),
   ("buffers", "sc__metric__design__buffers")]

/-- The copy loop of `post_process`: every pair of `metric_mapping` whose
report entry is present yields a manifest metric set to the raw value. -/
def post_process_copies (metrics : List (String × ℚ)) : List (String × ℚ) :=
  metric_mapping.filterMap fun p => (alookup p.2 metrics).map fun v => (p.1, v)

/-- `setupwns` derivation: when the raw setup worst-slack report entry is
present, the metric is set to `min(0.0, float(raw))`; otherwise it is not
set (`float` of a JSON number is the identity on the denoted rational). -/
def setupwns_metric (metrics : List (String × ℚ)) : Option ℚ :=
  (alookup "sc__metric__timing__setup__ws" metrics).map fun v => min 0 v

/-- `holdwns` derivation, identical shape from the raw hold worst slack. -/
def holdwns_metric (metrics : List (String × ℚ)) : Option ℚ :=
  (alookup "sc__metric__timing__hold__ws" metrics).map fun v => min 0 v

/-- The contributing violation counters for `drvs`, in source order. -/
def drv_report_keys : List String :=
  ["sc__metric__timing__drv__max_slew",
   "sc__metric__timing__drv__max_cap",
   "sc__metric__timing__drv__max_fanout",
   "sc__step__route__drc_errors",
   "sc__metric__antenna__violating__nets",
   "sc__metric__antenna__violating__pins"]

/-- One iteration of the `drvs` accumulation loop: a present counter either
initializes the accumulator or adds its integer value. -/
def drvs_step (metrics : List (String × ℚ)) (drvs : Option ℤ) (m : String) :
    Option ℤ :=
  match alookup m metrics with
  | none => drvs
  | some v =>
    match drvs with
    | none => some (pyInt v)
    | some d => some (d + pyInt v)

/-- The `drvs` accumulation over all contributing counters; the manifest
metric is set exactly when the result is `some`. -/
def drvs_metric (metrics : List (String × ℚ)) : Option ℤ :=
  drv_report_keys.foldl (drvs_step metrics) none

/-! ## report.py: manifest search (`search_manifest` and helpers) -/

/-- A manifest JSON value as handled by the search helpers: a string, a
nested dictionary, or any other JSON value (number, list, null), which the
helpers treat opaquely. -/
inductive JVal where
  | str : String → JVal
  | obj : List (String × JVal) → JVal
  | other : JVal

/-- `startsWith needle hay`: the first list is an initial segment of the
second. -/
def startsWith : List Char → List Char → Bool
  | [], _ => true
  | _ :: _, [] => false
  | a :: as, b :: bs => a = b && startsWith as bs

/-- Substring containment on character lists. -/
def pyInChars (needle : List Char) : List Char → Bool
  | [] => startsWith needle []
  | x :: xs => startsWith needle (x :: xs) || pyInChars needle xs

/-- Python `needle in hay` on strings: substring containment. -/
def pyInStr (needle hay : String) : Bool :=
  pyInChars needle.toList hay.toList

/-- Python truthiness of an optional string argument (`if key_search:`):
`None` and the empty string are falsy. -/
def pyTruthy : Option String → Bool
  | none => false
  | some s => ¬ s.isEmpty

/-- `search_manifest_keys`: keep an entry wholesale when the search string
occurs in its key; otherwise recurse into dictionary values and keep the
entry when the recursion returns a non-empty result. -/
def search_manifest_keys (key : String) :
    List (String × JVal) → List (String × JVal)
  | [] => []
  | (k, v) :: rest =>
    (if pyInStr key k then [(k, v)]
     else
       match v with
       | JVal.obj sub =>
         match search_manifest_keys key sub with
         | [] => []
         | r => [(k, JVal.obj r)]
       | _ => []) ++ search_manifest_keys key rest

/-- `search_manifest_values`: recurse into dictionary values, keeping
non-empty results; keep a string value when the search string occurs in
it; drop everything else. -/
def search_manifest_values (value : String) :
    List (String × JVal) → List (String × JVal)
  | [] => []
  | (k, v) :: rest =>
    (match v with
     | JVal.obj sub =>
       match search_manifest_values value sub with
       | [] => []
       | r => [(k, JVal.obj r)]
     | JVal.str s => if pyInStr value s then [(k, JVal.str s)] else []
     | JVal.other => []) ++ search_manifest_values value rest

/-- `search_manifest`: filter by key substring when a truthy key search is
supplied, then by value substring when a truthy value search is supplied. -/
def search_manifest (manifest : List (String × JVal))
    (key_search value_search : Option String) : List (String × JVal) :=
  let m1 := if pyTruthy key_search
            then search_manifest_keys (key_search.getD "") manifest
            else manifest
  if pyTruthy value_search
  then search_manifest_values (value_search.getD "") m1
  else m1

/-! ## Manifest store: `set` with the clobber flag

Modelled from the spec: the Manifest Store implementation (`Schema.set`)
is not among the provided sources — only its callers, such as the openroad
adapter's `setup`, are.  Following spec section 4.1 and the data model of
section 3, a leaf carries an optional explicitly-set global value plus
per-(step, index) overlay values, `none` meaning the slot still holds the
schema default; `set` with `clobber=true` always writes the addressed
slot, while `set` with `clobber=false` writes only a slot that still
carries the default and leaves a leaf already carrying a non-default value
unchanged. -/

/-- A write scope: `none` targets the global value, `some (step, index)`
the node-scoped overlay. -/
abbrev Scope := Option (String × String)

/-- Modelled from the spec: one manifest leaf (global value plus
per-(step, index) overlay map); `none` marks a slot still carrying the
schema default. -/
structure Leaf (α : Type) where
  global : Option α
  overlay : List ((String × String) × α)
deriving DecidableEq

/-- Replace the binding for `k`, or append it when absent. -/
def upsert {κ β : Type} [DecidableEq κ] (k : κ) (v : β) :
    List (κ × β) → List (κ × β)
  | [] => [(k, v)]
  | (k2, w) :: rest =>
    if k = k2 then (k, v) :: rest else (k2, w) :: upsert k v rest

/-- The explicitly-set (non-default) value a leaf carries at a scope;
`none` means the slot still holds the schema default. -/
def Leaf.currentVal {α : Type} (l : Leaf α) : Scope → Option α
  | none => l.global
  | some si => alookup si l.overlay

/-- Modelled from the spec: `set(keypath, value, step?, index?, clobber)`
restricted to one leaf. -/
def Leaf.setVal {α : Type} (l : Leaf α) (v : α) (clobber : Bool) :
    Scope → Leaf α
  | none =>
    if clobber || l.global.isNone then { l with global := some v } else l
  | some si =>
    if clobber || (alookup si l.overlay).isNone
    then { l with overlay := upsert si v l.overlay } else l

/-! ## openroad.py setup: per-node thread count -/

/-- Lines 88-92 of `setup`: `threads = os.cpu_count()`, replaced by
`int(math.ceil(os.cpu_count()/np))` when the run is not remote and the
node's step is a key of the flowgraph, `np` being the number of sibling
indices of that step.  The ceiling is taken exactly (binary64 division is
exact at every attainable cpu count, so `math.ceil` agrees with the
rational ceiling). -/
def setupThreads (cpuCount : ℕ) (remote : Bool)
    (flowSteps : List (String × List String)) (step : String) : ℕ :=
  if !remote && (alookup step flowSteps).isSome then
    let np := ((alookup step flowSteps).getD []).length
    (cpuCount + np - 1) / np
  else cpuCount

/-! ## report.py: get_flowgraph_path (winning-path query)

`get_flowgraph_path` walks backward from a set of end nodes following each
node's recorded `'select'` edges, collecting everything reached.  The
flowgraph's selection edges are modelled as an association list from
(step, index) nodes to their selected input nodes.  (When called with
`end_nodes=None` the source first computes the flow's exit nodes — a chip
query outside these sources — and proceeds identically; the claim
quantifies over explicit end-node sets.) -/

/-- A flowgraph node, addressed by (step, index). -/
abbrev FNode := String × String

/-- `chip.get('flowgraph', flow, *node, 'select')`: the selection edges
recorded for a node of the flowgraph. -/
def selOf (g : List (FNode × List FNode)) (n : FNode) : List FNode :=
  (alookup n g).getD []

/-- The inner `for selected in input_nodes` loop body: each selection-edge
target not yet in the selected set is added to the set and pushed on the
search stack. -/
def addNew (selected toSearch : List FNode) :
    List FNode → List FNode × List FNode
  | [] => (selected, toSearch)
  | m :: ms =>
    if m ∈ selected then addNew selected toSearch ms
    else addNew (selected ++ [m]) (toSearch ++ [m]) ms

/-- The `while len(to_search) > 0` loop, fuel-indexed: pop the last stack
entry (`to_search.pop(-1)`), process its selection edges, continue. -/
def searchLoop (g : List (FNode × List FNode)) :
    ℕ → List FNode → List FNode → List FNode
  | 0, selected, _ => selected
  | fuel + 1, selected, toSearch =>
    match toSearch.getLast? with
    | none => selected
    | some node =>
      let p := addNew selected toSearch.dropLast (selOf g node)
      searchLoop g fuel p.1 p.2

/-- Initialization: `selected_nodes.add(node); to_search.append(node)` for
each end node (the set add deduplicates, the list append does not). -/
def initPath (ends : List FNode) : List FNode × List FNode :=
  ends.foldl
    (fun p n => (if n ∈ p.1 then p.1 else p.1 ++ [n], p.2 ++ [n])) ([], [])

/-- Every node the loop can ever select lies in this list: the end nodes
plus every selection-edge target of the flowgraph. -/
def pathUniverse (g : List (FNode × List FNode)) (ends : List FNode) :
    List FNode :=
  ends ++ (g.map (fun p => p.2)).flatten

/-- Fuel sufficient for the worklist to drain: the loop pops one entry per
iteration and pushes each universe member at most once. -/
def pathFuel (g : List (FNode × List FNode)) (ends : List FNode) : ℕ :=
  ends.length + 2 * (pathUniverse g ends).length + 1

/-- `get_flowgraph_path` with an explicit end-node set. -/
def get_flowgraph_path (g : List (FNode × List FNode)) (ends : List FNode) :
    List FNode :=
  let p := initPath ends
  searchLoop g (pathFuel g ends) p.1 p.2

/-- Backward reachability along selection edges: the least predicate
containing the end nodes and closed under following `selOf`. -/
inductive Reach (g : List (FNode × List FNode)) (ends : List FNode) :
    FNode → Prop
  | base {n : FNode} : n ∈ ends → Reach g ends n
  | step {n m : FNode} : Reach g ends n → m ∈ selOf g n → Reach g ends m

/-- The worklist invariant: the selected set has no duplicates, stays in
the universe, contains the stack, is closed at every node no longer on the
stack, and contains only backward-reachable nodes. -/
structure LoopInv (g : List (FNode × List FNode)) (ends : List FNode)
    (selected toSearch : List FNode) : Prop where
  nodup : selected.Nodup
  inU : ∀ n ∈ selected, n ∈ pathUniverse g ends
  stack_sub : ∀ n ∈ toSearch, n ∈ selected
  processed : ∀ n ∈ selected, n ∉ toSearch → ∀ m ∈ selOf g n, m ∈ selected
  sound : ∀ n ∈ selected, Reach g ends n

/-- The concrete 3-node chain of the claim: `A → B → C`, `B` fanned out
into indices 0 and 1, `C` selecting the winning `B` index 0, each `B`
selecting `A`. -/
def chainGraph : List (FNode × List FNode) :=
  [(("A", "0"), []),
   (("B", "0"), [("A", "0")]),
   (("B", "1"), [("A", "0")]),
   (("C", "0"), [("B", "0")])]

/-! ## openroad.py: setup as a trace of chip-object effects

`setup(chip, mode='batch')` reads configuration from the chip object and
issues a sequence of manifest writes and log messages.  The values read
are gathered into a configuration record `Cfg` (with `chip.valid`,
`chip.find_files` and `chip.get` on var/file keypaths as oracles, and the
corner sets computed by `get_corners`/`get_pex_corners`/`get_power_corner`
as inputs, since they are pure reads of the constraint configuration);
`setupEffects` is the list of calls `setup` makes, in source order. -/

/-- A value passed to a manifest write: a string, a number, or a list of
strings (file lists and corner lists). -/
inductive SCVal where
  | s : String → SCVal
  | n : ℕ → SCVal
  | ls : List String → SCVal
deriving DecidableEq

/-- One chip-object call made by `setup`: a manifest `set` (keypath,
value, node-scoped flag, clobber flag), a node-scoped manifest `add`, an
error logged through `chip.logger.error`, or a `chip.error` call. -/
inductive Effect where
  | set : List String → SCVal → Bool → Bool → Effect
  | add : List String → SCVal → Effect
  | logError : String → Effect
  | chipError : String → Effect
deriving DecidableEq

/-- The chip state `setup` reads, as an abstract record. -/
structure Cfg where
  step : String
  index : String
  flow : String
  task : String
  design : String
  pdkname : String
  targetlibs : List String
  macrolibs : List String
  stackup : String
  delaymodel : String
  libtype : String
  breakpoint : Bool
  nodisplay : Bool
  remote : Bool
  cpuCount : ℕ
  flowSteps : List (String × List String)
  valid : List String → Bool
  findFiles : List String → List String
  getVar : List String → List String
  corners : List String
  pexCorners : List String
  powerCorner : String
  minlayer : String
  maxlayer : String
  toolVarPresent : String → Bool
  toolVarValue : String → List String

/-- `mainlib = targetlibs[0]` (setup raises before any effect when the
logiclib list is empty; theorems assume it non-empty). -/
def mainlib (cfg : Cfg) : String := cfg.targetlibs.headD ""

/-- Python `",".join(keypath)`. -/
def joinComma (l : List String) : String := String.intercalate "," l

/-- The node-scoped task keypath head `['tool', 'openroad', 'task', task]`. -/
def taskKey (cfg : Cfg) : List String := ["tool", "openroad", "task", cfg.task]

/-- `is_show_screenshot`, which decides the clobber flag used by the
version/format/option/refdir/script/threads writes. -/
def setupClobber (cfg : Cfg) (mode : String) : Bool :=
  mode = "show" || cfg.task = "show" || mode = "screenshot" ||
    cfg.task = "screenshot"

/-- The `option` string: `" -exit"` in non-breakpoint batch/screenshot
invocations (`mode` having been rewritten to `"show"` in show/screenshot
invocations first), then the metrics-file switch. -/
def optionStr (cfg : Cfg) (mode : String) : String :=
  let is_scr := mode = "screenshot" || cfg.task = "screenshot"
  let mode2 := if setupClobber cfg mode then "show" else mode
  (if (mode2 = "batch" || is_scr) && !cfg.breakpoint then " -exit" else "")
    ++ " -metrics reports/metrics.json"

/-- Lines 83-86: tool-global exe/vswitch/version/format writes. -/
def setupFixed (cfg : Cfg) (mode : String) : List Effect :=
  [Effect.set ["tool", "openroad", "exe"] (SCVal.s "openroad") false true,
   Effect.set ["tool", "openroad", "vswitch"] (SCVal.s "-version") false true,
   Effect.set ["tool", "openroad", "version"] (SCVal.s ">=v2.0-6445") false
     (setupClobber cfg mode),
   Effect.set ["tool", "openroad", "format"] (SCVal.s "tcl") false
     (setupClobber cfg mode)]

/-- Lines 96-99: node-scoped option/refdir/script/threads writes. -/
def setupTask (cfg : Cfg) (mode : String) : List Effect :=
  [Effect.set (taskKey cfg ++ ["option"]) (SCVal.s (optionStr cfg mode)) true
     (setupClobber cfg mode),
   Effect.set (taskKey cfg ++ ["refdir"]) (SCVal.s "tools/openroad") true
     (setupClobber cfg mode),
   Effect.set (taskKey cfg ++ ["script"]) (SCVal.s "sc_apr.tcl") true
     (setupClobber cfg mode),
   Effect.set (taskKey cfg ++ ["threads"])
     (SCVal.n (setupThreads cfg.cpuCount cfg.remote cfg.flowSteps cfg.step))
     true (setupClobber cfg mode)]

/-- Lines 101-104: declared outputs. -/
def setupOutputs (cfg : Cfg) : List Effect :=
  [".sdc", ".vg", ".def", ".odb"].map fun ext =>
    Effect.add (taskKey cfg ++ ["output"]) (SCVal.s (cfg.design ++ ext))

/-- Lines 106-108: offscreen Qt platform under nodisplay. -/
def setupNodisplay (cfg : Cfg) : List Effect :=
  if cfg.nodisplay then
    [Effect.set (taskKey cfg ++ ["env", "QT_QPA_PLATFORM"])
      (SCVal.s "offscreen") true true]
  else []

/-- Lines 110-111: a delay model other than nldm is only logged as an
error; nothing is raised and no effect is suppressed. -/
def setupDelayCheck (cfg : Cfg) : List Effect :=
  if cfg.delaymodel ≠ "nldm" then
    [Effect.logError
      (cfg.delaymodel ++ " delay model is not supported by openroad, only nldm")]
  else []

/-- Lines 120-127: the tapcell file resolution (library override first,
then PDK default), written with `clobber=False` when truthy. -/
def setupTapcell (cfg : Cfg) : List Effect :=
  let key0 := ["library", mainlib cfg, "option", "file", "openroad_tapcells"]
  let key1 := ["pdk", cfg.pdkname, "aprtech", "openroad", cfg.stackup,
               cfg.libtype, "tapcells"]
  let tapfile :=
    if cfg.valid key0 then cfg.findFiles key0
    else if cfg.valid key1 then cfg.findFiles key1
    else []
  if tapfile ≠ [] then
    [Effect.set (taskKey cfg ++ ["var", "ifp_tapcell"]) (SCVal.ls tapfile)
      true false]
  else []

/-- Lines 113-140: the stackup/logiclib block — base requirements, the
tapcell file, per-library per-corner delay-model and lef requirements —
or a `chip.error` when either parameter is missing. -/
def setupLibBlock (cfg : Cfg) : List Effect :=
  if cfg.stackup ≠ "" ∧ cfg.targetlibs ≠ [] then
    [Effect.add (taskKey cfg ++ ["require"]) (SCVal.s "asic,logiclib"),
     Effect.add (taskKey cfg ++ ["require"]) (SCVal.s "option,stackup"),
     Effect.add (taskKey cfg ++ ["require"])
       (SCVal.s (joinComma ["library", mainlib cfg, "asic", "site", cfg.libtype])),
     Effect.add (taskKey cfg ++ ["require"])
       (SCVal.s (joinComma ["pdk", cfg.pdkname, "aprtech", "openroad",
         cfg.stackup, cfg.libtype, "lef"]))] ++
    setupTapcell cfg ++
    (cfg.targetlibs.map fun lib =>
      (cfg.corners.map fun corner =>
        Effect.add (taskKey cfg ++ ["require"])
          (SCVal.s (joinComma ["library", lib, "output", corner,
            cfg.delaymodel]))) ++
      [Effect.add (taskKey cfg ++ ["require"])
        (SCVal.s (joinComma ["library", lib, "output", cfg.stackup,
          "lef"]))]).flatten ++
    (cfg.macrolibs.map fun lib =>
      (cfg.corners.filterMap fun corner =>
        if cfg.valid ["library", lib, "output", corner, cfg.delaymodel] then
          some (Effect.add (taskKey cfg ++ ["require"])
            (SCVal.s (joinComma ["library", lib, "output", corner,
              cfg.delaymodel])))
        else none) ++
      [Effect.add (taskKey cfg ++ ["require"])
        (SCVal.s (joinComma ["library", lib, "output", cfg.stackup,
          "lef"]))]).flatten
  else [Effect.chipError "Stackup and logiclib parameters required for OpenROAD."]

/-- Lines 142-145: corner variables (`clobber=False`) and the parasitics
script path (`clobber=True`). -/
def setupCornerVars (cfg : Cfg) : List Effect :=
  [Effect.set (taskKey cfg ++ ["var", "timing_corners"]) (SCVal.ls cfg.corners)
     true false,
   Effect.set (taskKey cfg ++ ["var", "pex_corners"]) (SCVal.ls cfg.pexCorners)
     true false,
   Effect.set (taskKey cfg ++ ["var", "power_corner"]) (SCVal.s cfg.powerCorner)
     true false,
   Effect.set (taskKey cfg ++ ["var", "parasitics"])
     (SCVal.s "inputs/sc_parasitics.tcl") true true]

/-- Line 147: the literal tie-cell variable-pair table of the source — the
tiehigh pair twice, no tielow pair. -/
def tiePairs : List (String × String) :=
  [("openroad_tiehigh_cell", "openroad_tiehigh_port"),
   ("openroad_tiehigh_cell", "openroad_tiehigh_port")]

/-- Lines 148-153: the tie-cell loop body for one (var0, var1) pair: when
either library variable of the pair exists, require the other. -/
def tieBody (cfg : Cfg) (p : String × String) : List Effect :=
  let key0 := ["library", mainlib cfg, "option", "var", "openroad", p.1]
  let key1 := ["library", mainlib cfg, "option", "var", "openroad", p.2]
  (if cfg.valid key0 then
    [Effect.add (taskKey cfg ++ ["require"]) (SCVal.s (joinComma key1))]
   else []) ++
  (if cfg.valid key1 then
    [Effect.add (taskKey cfg ++ ["require"]) (SCVal.s (joinComma key0))]
   else [])

/-- Lines 147-153: the tie-cell requirement loop over `tiePairs`. -/
def tieLoop (cfg : Cfg) : List Effect :=
  (tiePairs.map (tieBody cfg)).flatten

/-- Lines 155-158: PDK routing/pin layer requirements. -/
def setupPdkRequires (cfg : Cfg) : List Effect :=
  ["rclayer_signal", "rclayer_clock", "pin_layer_horizontal",
   "pin_layer_vertical"].map fun v =>
    Effect.add (taskKey cfg ++ ["require"])
      (SCVal.s (joinComma ["pdk", cfg.pdkname, "var", "openroad", v,
        cfg.stackup]))

/-- Lines 160-166: the per-variable default table of tool variables read
from the main library. -/
def or_variables : List String :=
  ["place_density", "pad_global_place", "pad_detail_place",
   "macro_place_halo", "macro_place_channel"]

/-- Lines 167-182: copy each library default (when present) into the tool
variable with `clobber=False` and require its source keypath; always
require the tool variable itself. -/
def setupVariablesLoop (cfg : Cfg) : List Effect :=
  (or_variables.map fun vname =>
    (if cfg.valid ["library", mainlib cfg, "option", "var",
        "openroad_" ++ vname] then
      [Effect.set (taskKey cfg ++ ["var", vname])
        (SCVal.ls (cfg.getVar ["library", mainlib cfg, "option", "var",
          "openroad_" ++ vname])) true false,
       Effect.add (taskKey cfg ++ ["require"])
        (SCVal.s (joinComma ["library", mainlib cfg, "option", "var",
          "openroad_" ++ vname]))]
     else []) ++
    [Effect.add (taskKey cfg ++ ["require"])
      (SCVal.s (joinComma ["tool", "openroad", "task", cfg.task, "var",
        vname]))]).flatten

/-- Lines 184-190: copy the two detailed-route variables from the PDK when
present, with `clobber=False`. -/
def setupPdkCopy (cfg : Cfg) : List Effect :=
  (["detailed_route_default_via",
    "detailed_route_unidirectional_layer"].map fun vname =>
    if cfg.valid ["pdk", cfg.pdkname, "var", "openroad", cfg.stackup,
        vname] then
      [Effect.set (taskKey cfg ++ ["var", vname])
        (SCVal.ls (cfg.getVar ["pdk", cfg.pdkname, "var", "openroad",
          cfg.stackup, vname])) true false]
    else []).flatten

/-- Lines 192-231: the literal table of openroad default variable values
(the four grt layer entries read the PDK min/max layers). -/
def or_defaults (cfg : Cfg) : List (String × String) :=
  [("ifp_tie_separation", "0"),
   ("pdn_enable", "true"),
   ("gpl_routability_driven", "true"),
   ("gpl_timing_driven", "true"),
   ("dpo_enable", "true"),
   ("dpo_max_displacement", "0"),
   ("dpl_max_displacement", "0"),
   ("cts_distance_between_buffers", "100"),
   ("cts_cluster_diameter", "100"),
   ("cts_cluster_size", "30"),
   ("cts_balance_levels", "true"),
   ("ant_iterations", "3"),
   ("ant_margin", "0"),
   ("grt_use_pin_access", "false"),
   ("grt_overflow_iter", "100"),
   ("grt_macro_extension", "2"),
   ("grt_allow_congestion", "false"),
   ("grt_allow_overflow", "false"),
   ("grt_signal_min_layer", cfg.minlayer),
   ("grt_signal_max_layer", cfg.maxlayer),
   ("grt_clock_min_layer", cfg.minlayer),
   ("grt_clock_max_layer", cfg.maxlayer),
   ("drt_disable_via_gen", "false"),
   ("drt_process_node", "false"),
   ("drt_via_in_pin_bottom_layer", "false"),
   ("drt_via_in_pin_top_layer", "false"),
   ("drt_repair_pdn_vias", "false"),
   ("drt_via_repair_post_route", "false"),
   ("rsz_setup_slack_margin", "0.0"),
   ("rsz_hold_slack_margin", "0.0"),
   ("rsz_slew_margin", "0.0"),
   ("rsz_cap_margin", "0.0"),
   ("rsz_buffer_inputs", "false"),
   ("rsz_buffer_outputs", "false"),
   ("sta_early_timing_derate", "0.0"),
   ("sta_late_timing_derate", "0.0"),
   ("fin_add_fill", "true"),
   ("psm_enable", "true")]

/-- Lines 192-232: write every default variable with `clobber=False`. -/
def setupDefaultsTable (cfg : Cfg) : List Effect :=
  (or_defaults cfg).map fun p =>
    Effect.set (taskKey cfg ++ ["var", p.1]) (SCVal.s p.2) true false

/-- Lines 234-245: copy pdngen/global-connect file lists from the
libraries, unless the tool variable exists with an empty node value. -/
def setupPdnCopy (cfg : Cfg) : List Effect :=
  ([("openroad_pdngen", "pdn_config"),
    ("openroad_global_connect", "global_connect")].map fun p =>
    if cfg.toolVarPresent p.2 && (cfg.toolVarValue p.2).isEmpty then []
    else
      ((cfg.targetlibs ++ cfg.macrolibs).map fun lib =>
        if cfg.valid ["library", lib, "option", "file", p.1] then
          (cfg.findFiles ["library", lib, "option", "file", p.1]).map fun f =>
            Effect.add (taskKey cfg ++ ["var", p.2]) (SCVal.s f)
        else []).flatten).flatten

/-- Lines 249-251: the warning/error log-scan regexes (`clobber=False`). -/
def setupRegexes (cfg : Cfg) : List Effect :=
  [Effect.set (taskKey cfg ++ ["regex", "warnings"])
     (SCVal.s "^\\[WARNING|^Warning") true false,
   Effect.set (taskKey cfg ++ ["regex", "errors"]) (SCVal.s "^\\[ERROR")
     true false]

/-- Lines 253-258: every metric bound to the metrics report file. -/
def report_metrics : List String :=
  ["vias", "wirelength", "cellarea", "totalarea", "utilization", "setuptns",
   "holdtns", "setupslack", "holdslack", "setuppaths", "holdpaths",
   "unconstrained", "peakpower", "leakagepower", "pins", "cells", "macros",
   "nets", "registers", "buffers", "drvs", "setupwns", "holdwns"]

/-- Lines 253-258: report bindings. -/
def setupReports (cfg : Cfg) : List Effect :=
  report_metrics.map fun m =>
    Effect.set (taskKey cfg ++ ["report", m]) (SCVal.s "reports/metrics.json")
      true true

/-- The full effect trace of `setup(chip, mode)`, in source order. -/
def setupEffects (cfg : Cfg) (mode : String) : List Effect :=
  setupFixed cfg mode ++ setupTask cfg mode ++ setupOutputs cfg ++
  setupNodisplay cfg ++ setupDelayCheck cfg ++ setupLibBlock cfg ++
  setupCornerVars cfg ++ tieLoop cfg ++ setupPdkRequires cfg ++
  setupVariablesLoop cfg ++ setupPdkCopy cfg ++ setupDefaultsTable cfg ++
  setupPdnCopy cfg ++ setupRegexes cfg ++ setupReports cfg

/-- A concrete configuration used by the witnesses: a ccs delay model on a
one-library target. -/
def cfgEx : Cfg where
  step := "place"
  index := "0"
  flow := "asicflow"
  task := "place"
  design := "heartbeat"
  pdkname := "freepdk45"
  targetlibs := ["nangate45"]
  macrolibs := []
  stackup := "10M"
  delaymodel := "ccs"
  libtype := "10t"
  breakpoint := false
  nodisplay := false
  remote := false
  cpuCount := 8
  flowSteps := [("place", ["0", "1"])]
  valid := fun _ => true
  findFiles := fun _ => ["/pdk/file.tcl"]
  getVar := fun _ => ["0.5"]
  corners := ["slow"]
  pexCorners := ["typical"]
  powerCorner := "typical"
  minlayer := "m1"
  maxlayer := "m10"
  toolVarPresent := fun _ => false
  toolVarValue := fun _ => []

/-! ### Lemmas about the split primitives -/

theorem splitOnChar_ne_nil (c : Char) (l : List Char) : splitOnChar c l ≠ [] := by
  cases l with
  | nil => simp [splitOnChar]
  | cons x xs =>
    simp only [splitOnChar]
    cases h : splitOnChar c xs with
    | nil => simp
    | cons h t =>
      by_cases hx : x = c <;> simp [hx]

/-- A list with no occurrence of the separator splits into itself alone. -/
theorem splitOnChar_of_not_mem {c : Char} {l : List Char} (h : c ∉ l) :
    splitOnChar c l = [l] := by
  induction l with
  | nil => rfl
  | cons x xs ih =>
    simp only [List.mem_cons, not_or] at h
    simp only [splitOnChar, ih h.2]
    have hx : ¬ x = c := fun hc => h.1 hc.symm
    simp [hx]

/-- Splitting at the separator has at least two pieces exactly when the
separator occurs. -/
theorem splitOnChar_length_gt_one_iff (c : Char) (l : List Char) :
    (splitOnChar c l).length > 1 ↔ c ∈ l := by
  induction l with
  | nil => simp [splitOnChar]
  | cons x xs ih =>
    simp only [splitOnChar]
    cases h : splitOnChar c xs with
    | nil => exact absurd h (splitOnChar_ne_nil c xs)
    | cons p t =>
      rw [h] at ih
      by_cases hx : x = c
      · subst hx
        simp
      · have : (c ∈ x :: xs) ↔ c ∈ xs := by
          simp only [List.mem_cons]
          constructor
          · rintro (rfl | hm)
            · exact absurd rfl hx
            · exact hm
          · exact Or.inr
        simp only [hx, if_false, this, ← ih]
        simp

theorem dropWhile_head_not {p : Char → Bool} :
    ∀ (l : List Char) (c : Char), (l.dropWhile p).head? = some c → p c = false := by
  intro l
  induction l with
  | nil => intro c h; simp [List.dropWhile] at h
  | cons x xs ih =>
    intro c h
    by_cases hx : p x
    · rw [List.dropWhile_cons_of_pos hx] at h
      exact ih c h
    · rw [List.dropWhile_cons_of_neg hx] at h
      simp only [List.head?_cons, Option.some.injEq] at h
      subst h
      exact Bool.eq_false_iff.mpr hx

theorem takeWhile_eq_self_replicate (v : Char) :
    ∀ l : List Char, l.takeWhile (fun c => c = v) =
      List.replicate (l.takeWhile (fun c => c = v)).length v := by
  intro l
  induction l with
  | nil => rfl
  | cons x xs ih =>
    by_cases hx : x = v
    · subst hx
      rw [List.takeWhile_cons_of_pos (by simp)]
      simp only [List.length_cons, List.replicate_succ, List.cons.injEq, true_and]
      exact ih
    · rw [List.takeWhile_cons_of_neg (by simpa using hx)]
      rfl

/-- C2: `parse_version` returns the last whitespace-delimited token when it
has no `'-'`, and otherwise that token with its final `'-'`-separated
segment dropped and the rest rejoined with `'-'`; with the three concrete
examples from the spec. -/
theorem parse_version_correct (stdout v : List Char)
    (h : (splitWs stdout).getLast? = some v) :
    parse_versionL stdout =
      some (if '-' ∈ v then joinDash (splitOnChar '-' v).dropLast else v) ∧
    parse_version "1 v2.0-880-gd1c7001ad" = some "v2.0-880" ∧
    parse_version "v2.0-1862-g0d785bd84" = some "v2.0-1862" ∧
    parse_version "1 08de3b46c71e329a10aa4e753dcfeba2ddf54ddd" =
      some "08de3b46c71e329a10aa4e753dcfeba2ddf54ddd" := by
  refine ⟨?_, by decide, by decide, by decide⟩
  unfold parse_versionL
  rw [h, Option.map_some']
  by_cases hm : '-' ∈ v
  · rw [if_pos hm, if_pos ((splitOnChar_length_gt_one_iff '-' v).mpr hm)]
  · rw [if_neg hm, splitOnChar_of_not_mem hm]
    simp

/-- Witness for C2 at the concrete input `"1 v2.0-880-gd1c7001ad"`. -/
theorem parse_version_correct_witness :
    parse_versionL ("1 v2.0-880-gd1c7001ad".toList) =
      some (if '-' ∈ ("v2.0-880-gd1c7001ad".toList)
            then joinDash (splitOnChar '-' ("v2.0-880-gd1c7001ad".toList)).dropLast
            else "v2.0-880-gd1c7001ad".toList) ∧
    parse_version "1 v2.0-880-gd1c7001ad" = some "v2.0-880" ∧
    parse_version "v2.0-1862-g0d785bd84" = some "v2.0-1862" ∧
    parse_version "1 08de3b46c71e329a10aa4e753dcfeba2ddf54ddd" =
      some "08de3b46c71e329a10aa4e753dcfeba2ddf54ddd" :=
  parse_version_correct ("1 v2.0-880-gd1c7001ad".toList)
    ("v2.0-880-gd1c7001ad".toList) (by decide)

/-- C3 counterexample: the claim predicts that for a version containing a
dot the result is the input with its leading version-prefix character
stripped, so `"vv2.0"` would map to `"v2.0"`; the code's `lstrip('v')`
strips the whole leading run of `'v'` characters and yields `"2.0"`. -/
theorem normalize_version_strips_all_leading_v :
    normalize_version "vv2.0" = "2.0" ∧ normalize_version "vv2.0" ≠ "v2.0" := by
  constructor
  · rfl
  · decide

/-- C3 amended: when the version contains a `'.'`, `normalize_version`
removes the maximal leading run of `'v'` characters (Python `lstrip('v')`),
i.e. the input is that run of `'v'`s followed by the result, and the result
does not start with `'v'`; when the version contains no `'.'` the sentinel
`"0"` is returned.  Concrete cases from the spec included. -/
theorem normalize_version_correct (v w : List Char)
    (hdot : '.' ∈ v) (hno : '.' ∉ w) :
    (∃ n : ℕ, v = List.replicate n 'v' ++ normalize_versionL v ∧
        ∀ c, (normalize_versionL v).head? = some c → c ≠ 'v') ∧
    normalize_versionL w = ['0'] ∧
    normalize_version "v2.0-880" = "2.0-880" ∧
    normalize_version "vv2.0" = "2.0" := by
  refine ⟨?_, ?_, by decide, by decide⟩
  · have hnv : normalize_versionL v = v.dropWhile (fun c => c = 'v') := by
      simp [normalize_versionL, hdot]
    refine ⟨(v.takeWhile (fun c => c = 'v')).length, ?_, ?_⟩
    · rw [hnv, ← takeWhile_eq_self_replicate, List.takeWhile_append_dropWhile]
    · intro c hc hcv
      rw [hnv] at hc
      have := dropWhile_head_not v c hc
      rw [hcv] at this
      simp at this
  · simp [normalize_versionL, hno]

/-- Witness for C3's amended theorem at `"vv2.0"` and `"20210619"`. -/
theorem normalize_version_correct_witness :
    (∃ n : ℕ, "vv2.0".toList =
        List.replicate n 'v' ++ normalize_versionL ("vv2.0".toList) ∧
      ∀ c, (normalize_versionL ("vv2.0".toList)).head? = some c → c ≠ 'v') ∧
    normalize_versionL ("20210619".toList) = ['0'] ∧
    normalize_version "v2.0-880" = "2.0-880" ∧
    normalize_version "vv2.0" = "2.0" :=
  normalize_version_correct ("vv2.0".toList) ("20210619".toList)
    (by decide) (by decide)

/-! ### post_process lemmas -/

theorem foldl_drvs_some (metrics : List (String × ℚ)) :
    ∀ (keys : List String) (a : ℤ),
      keys.foldl (drvs_step metrics) (some a) =
        some (a + ((keys.filterMap (fun k => alookup k metrics)).map pyInt).sum) := by
  intro keys
  induction keys with
  | nil => intro a; simp
  | cons k ks ih =>
    intro a
    simp only [List.foldl_cons, List.filterMap_cons]
    cases h : alookup k metrics with
    | none => simp [drvs_step, h, ih]
    | some v =>
      simp only [drvs_step, h, ih, List.map_cons, List.sum_cons]
      ring_nf

theorem foldl_drvs_none (metrics : List (String × ℚ)) :
    ∀ keys : List String,
      keys.foldl (drvs_step metrics) none =
        if ∀ k ∈ keys, alookup k metrics = none then none
        else some (((keys.filterMap (fun k => alookup k metrics)).map pyInt).sum) := by
  intro keys
  induction keys with
  | nil => simp
  | cons k ks ih =>
    simp only [List.foldl_cons, List.filterMap_cons]
    cases h : alookup k metrics with
    | none =>
      rw [show drvs_step metrics none k = none by simp [drvs_step, h], ih]
      by_cases hall : ∀ k2 ∈ ks, alookup k2 metrics = none
      · rw [if_pos hall, if_pos]
        intro k2 hk2
        rcases List.mem_cons.mp hk2 with rfl | hk2
        · exact h
        · exact hall k2 hk2
      · rw [if_neg hall, if_neg]
        intro hcontra
        exact hall fun k2 hk2 => hcontra k2 (List.mem_cons_of_mem _ hk2)
    | some v =>
      rw [show drvs_step metrics none k = some (pyInt v) by simp [drvs_step, h],
        foldl_drvs_some, if_neg]
      · simp
      · intro hcontra
        have := hcontra k (List.mem_cons_self _ _)
        rw [h] at this
        exact Option.noConfusion this

/-- C4: whenever the raw setup (resp. hold) worst-slack entry is present in
the report mapping, the derived `setupwns` (resp. `holdwns`) metric is set
to `min 0` of the raw value; concretely, raw setup slack `-0.5` yields
`-0.5` and raw setup slack `1.2` yields `0.0`. -/
theorem post_process_wns_clamp (m1 m2 : List (String × ℚ)) (r1 r2 : ℚ)
    (h1 : alookup "sc__metric__timing__setup__ws" m1 = some r1)
    (h2 : alookup "sc__metric__timing__hold__ws" m2 = some r2) :
    setupwns_metric m1 = some (min 0 r1) ∧
    holdwns_metric m2 = some (min 0 r2) ∧
    setupwns_metric [("sc__metric__timing__setup__ws", -(1/2 : ℚ))] =
      some (-(1/2 : ℚ)) ∧
    setupwns_metric [("sc__metric__timing__setup__ws", (6/5 : ℚ))] = some 0 ∧
    holdwns_metric [("sc__metric__timing__hold__ws", -(1/2 : ℚ))] =
      some (-(1/2 : ℚ)) := by
  refine ⟨?_, ?_, ?_, ?_, ?_⟩
  · simp [setupwns_metric, h1]
  · simp [holdwns_metric, h2]
  · simp only [setupwns_metric, alookup, if_pos rfl, Option.map_some']
    norm_num
  · simp only [setupwns_metric, alookup, if_pos rfl, Option.map_some']
    norm_num
  · simp only [holdwns_metric, alookup, if_pos rfl, Option.map_some']
    norm_num

/-- Witness for C4 at singleton report mappings. -/
theorem post_process_wns_clamp_witness :
    setupwns_metric [("sc__metric__timing__setup__ws", -(1/2 : ℚ))] =
      some (min 0 (-(1/2 : ℚ))) ∧
    holdwns_metric [("sc__metric__timing__hold__ws", (6/5 : ℚ))] =
      some (min 0 (6/5 : ℚ)) ∧
    setupwns_metric [("sc__metric__timing__setup__ws", -(1/2 : ℚ))] =
      some (-(1/2 : ℚ)) ∧
    setupwns_metric [("sc__metric__timing__setup__ws", (6/5 : ℚ))] = some 0 ∧
    holdwns_metric [("sc__metric__timing__hold__ws", -(1/2 : ℚ))] =
      some (-(1/2 : ℚ)) :=
  post_process_wns_clamp
    [("sc__metric__timing__setup__ws", -(1/2 : ℚ))]
    [("sc__metric__timing__hold__ws", (6/5 : ℚ))]
    (-(1/2 : ℚ)) (6/5 : ℚ) (by simp [alookup]) (by simp [alookup])

/-- C5: the `drvs` metric is left unset exactly when every contributing
violation counter is absent from the report mapping, and when set it equals
the sum of the integer values of exactly the counters that are present. -/
theorem post_process_drvs_sum (metrics : List (String × ℚ)) :
    (drvs_metric metrics = none ↔
      ∀ k ∈ drv_report_keys, alookup k metrics = none) ∧
    (∀ s : ℤ, drvs_metric metrics = some s →
      s = ((drv_report_keys.filterMap (fun k => alookup k metrics)).map
            pyInt).sum) := by
  have h := foldl_drvs_none metrics drv_report_keys
  rw [drvs_metric]
  by_cases hall : ∀ k ∈ drv_report_keys, alookup k metrics = none
  · rw [h, if_pos hall]
    exact ⟨iff_of_true rfl hall, fun s hs => Option.noConfusion hs⟩
  · rw [h, if_neg hall]
    refine ⟨iff_of_false (fun hc => Option.noConfusion hc) hall, ?_⟩
    intro s hs
    exact (Option.some.inj hs).symm

/-- Witness for C5 at a concrete report with two counters present. -/
theorem post_process_drvs_sum_witness :
    (drvs_metric [("sc__metric__timing__drv__max_cap", (3 : ℚ)),
                  ("sc__step__route__drc_errors", (4 : ℚ))] = none ↔
      ∀ k ∈ drv_report_keys,
        alookup k [("sc__metric__timing__drv__max_cap", (3 : ℚ)),
                   ("sc__step__route__drc_errors", (4 : ℚ))] = none) ∧
    (∀ s : ℤ,
      drvs_metric [("sc__metric__timing__drv__max_cap", (3 : ℚ)),
                   ("sc__step__route__drc_errors", (4 : ℚ))] = some s →
      s = ((drv_report_keys.filterMap (fun k =>
              alookup k [("sc__metric__timing__drv__max_cap", (3 : ℚ)),
                         ("sc__step__route__drc_errors", (4 : ℚ))])).map
            pyInt).sum) :=
  post_process_drvs_sum
    [("sc__metric__timing__drv__max_cap", (3 : ℚ)),
     ("sc__step__route__drc_errors", (4 : ℚ))]

/-! ### Manifest store lemmas and claims C1, C7, C10 -/

theorem alookup_upsert {κ β : Type} [DecidableEq κ] (k : κ) (v : β) :
    ∀ l : List (κ × β), alookup k (upsert k v l) = some v := by
  intro l
  induction l with
  | nil => simp [upsert, alookup]
  | cons p rest ih =>
    obtain ⟨k2, w⟩ := p
    by_cases hk : k = k2
    · simp [upsert, hk, alookup]
    · simp [upsert, hk, alookup, ih]

theorem setVal_noop {α : Type} (l : Leaf α) (sc : Scope) (v : α)
    (hset : (l.currentVal sc).isSome) : l.setVal v false sc = l := by
  cases sc with
  | none =>
    cases h : l.global with
    | none => rw [Leaf.currentVal, h] at hset; simp at hset
    | some a => simp [Leaf.setVal, h]
  | some si =>
    cases h : alookup si l.overlay with
    | none => rw [Leaf.currentVal, h] at hset; simp at hset
    | some a => simp [Leaf.setVal, h]

theorem setVal_writes {α : Type} (l : Leaf α) (sc : Scope) (v : α)
    (hdef : l.currentVal sc = none) :
    (l.setVal v false sc).currentVal sc = some v := by
  cases sc with
  | none =>
    rw [Leaf.currentVal] at hdef
    simp [Leaf.setVal, Leaf.currentVal, hdef]
  | some si =>
    rw [Leaf.currentVal] at hdef
    simp [Leaf.setVal, Leaf.currentVal, hdef, alookup_upsert]

/-- C1: a `set` with `clobber=false` on a leaf already carrying a
non-default value leaves the leaf unchanged; from a default slot,
`set(v, clobber=false)` followed by `set(v2, clobber=false)` is the same
as the first set alone and leaves the slot at `v`, not `v2`, at every
(step, index) scope — the mechanism letting tool adapters such as the
openroad `setup` defaults coexist with user configuration. -/
theorem manifest_set_noclobber (α : Type) (l l2 : Leaf α) (sc sc2 : Scope)
    (v w w2 : α) (hset : (l.currentVal sc).isSome)
    (hdef : l2.currentVal sc2 = none) :
    l.setVal v false sc = l ∧
    (l2.setVal w false sc2).currentVal sc2 = some w ∧
    (l2.setVal w false sc2).setVal w2 false sc2 = l2.setVal w false sc2 ∧
    ((l2.setVal w false sc2).setVal w2 false sc2).currentVal sc2 = some w := by
  have h1 := setVal_noop l sc v hset
  have h2 := setVal_writes l2 sc2 w hdef
  have h3 := setVal_noop (l2.setVal w false sc2) sc2 w2 (by rw [h2]; rfl)
  exact ⟨h1, h2, h3, by rw [h3]; exact h2⟩

/-- Witness for C1: a leaf set globally, and a fresh node-scoped slot. -/
theorem manifest_set_noclobber_witness :
    (Leaf.setVal ⟨some 5, []⟩ 7 false none = ⟨some (5 : ℕ), []⟩) ∧
    ((Leaf.setVal ⟨none, []⟩ 7 false (some ("place", "0"))).currentVal
        (some ("place", "0")) = some (7 : ℕ)) ∧
    ((Leaf.setVal ⟨none, []⟩ 7 false (some ("place", "0"))).setVal 9 false
        (some ("place", "0")) =
      Leaf.setVal ⟨none, []⟩ 7 false (some ("place", "0"))) ∧
    (((Leaf.setVal ⟨none, []⟩ 7 false (some ("place", "0"))).setVal 9 false
        (some ("place", "0"))).currentVal (some ("place", "0")) =
      some (7 : ℕ)) :=
  manifest_set_noclobber ℕ ⟨some 5, []⟩ ⟨none, []⟩ none
    (some ("place", "0")) 7 7 9 (by decide) (by decide)

/-- C7: with the step present in the flowgraph and the run local, the
thread count passed to the node-scoped `threads` key is the ceiling of
cpu count over the number of sibling indices; on a remote run, or for a
step absent from the flowgraph, it is the plain cpu count. -/
theorem setup_threads_ceil (cpu : ℕ) (flowSteps : List (String × List String))
    (step : String) (idxs : List String)
    (hstep : alookup step flowSteps = some idxs) (hpos : idxs ≠ []) :
    setupThreads cpu false flowSteps step =
      ⌈(cpu : ℚ) / (idxs.length : ℚ)⌉₊ ∧
    setupThreads cpu true flowSteps step = cpu ∧
    ∀ s2, alookup s2 flowSteps = none →
      ∀ r, setupThreads cpu r flowSteps s2 = cpu := by
  refine ⟨?_, by simp [setupThreads], ?_⟩
  · have hlen : 0 < idxs.length := List.length_pos.mpr hpos
    have hlenQ : (0 : ℚ) < (idxs.length : ℚ) := by exact_mod_cast hlen
    have hdef : setupThreads cpu false flowSteps step =
        (cpu + idxs.length - 1) / idxs.length := by
      simp [setupThreads, hstep]
    rw [hdef]
    have hcd : (cpu + idxs.length - 1) / idxs.length =
        CeilDiv.ceilDiv cpu idxs.length := rfl
    rw [hcd]
    apply le_antisymm
    · rw [ceilDiv_le_iff_le_mul hlen]
      have h1 : (cpu : ℚ) / (idxs.length : ℚ) ≤
          (⌈(cpu : ℚ) / (idxs.length : ℚ)⌉₊ : ℚ) := Nat.le_ceil _
      have h2 : (cpu : ℚ) ≤
          (⌈(cpu : ℚ) / (idxs.length : ℚ)⌉₊ : ℚ) * (idxs.length : ℚ) :=
        (div_le_iff₀ hlenQ).mp h1
      calc cpu ≤ ⌈(cpu : ℚ) / (idxs.length : ℚ)⌉₊ * idxs.length := by
            exact_mod_cast h2
        _ = idxs.length * ⌈(cpu : ℚ) / (idxs.length : ℚ)⌉₊ := Nat.mul_comm _ _
    · apply Nat.ceil_le.mpr
      rw [div_le_iff₀ hlenQ]
      have h3 : cpu ≤ idxs.length * CeilDiv.ceilDiv cpu idxs.length :=
        le_smul_ceilDiv hlen
      calc (cpu : ℚ) ≤ ((idxs.length * CeilDiv.ceilDiv cpu idxs.length : ℕ) : ℚ) := by
            exact_mod_cast h3
        _ = ((CeilDiv.ceilDiv cpu idxs.length : ℕ) : ℚ) * (idxs.length : ℚ) := by
            push_cast
            ring
  · intro s2 h2 r
    simp [setupThreads, h2]

/-- Witness for C7: ten cpus over a three-index step give four threads. -/
theorem setup_threads_ceil_witness :
    setupThreads 10 false [("place", ["0", "1", "2"])] "place" =
      ⌈(10 : ℚ) / ((["0", "1", "2"] : List String).length : ℚ)⌉₊ ∧
    setupThreads 10 true [("place", ["0", "1", "2"])] "place" = 10 ∧
    ∀ s2, alookup s2 [("place", ["0", "1", "2"])] = none →
      ∀ r, setupThreads 10 r [("place", ["0", "1", "2"])] s2 = 10 :=
  setup_threads_ceil 10 [("place", ["0", "1", "2"])] "place" ["0", "1", "2"]
    (by decide) (by decide)

/-- C10: supplying neither a key search nor a value search makes
`search_manifest` the identity on the manifest. -/
theorem search_manifest_identity (m : List (String × JVal)) :
    search_manifest m none none = m := rfl

/-! ### get_flowgraph_path: worklist lemmas -/

theorem alookup_mem {κ β : Type} [DecidableEq κ] {k : κ} {v : β} :
    ∀ {l : List (κ × β)}, alookup k l = some v → (k, v) ∈ l := by
  intro l
  induction l with
  | nil => intro h; exact Option.noConfusion h
  | cons p rest ih =>
    obtain ⟨k2, w⟩ := p
    intro h
    rw [alookup] at h
    by_cases hk : k = k2
    · rw [if_pos hk] at h
      obtain rfl := Option.some.inj h
      exact hk ▸ List.mem_cons_self _ _
    · rw [if_neg hk] at h
      exact List.mem_cons_of_mem _ (ih h)

theorem selOf_subset_universe (g : List (FNode × List FNode))
    (ends : List FNode) (n : FNode) :
    ∀ m ∈ selOf g n, m ∈ pathUniverse g ends := by
  intro m hm
  rw [selOf] at hm
  cases h : alookup n g with
  | none => rw [h] at hm; simp at hm
  | some l =>
    rw [h] at hm
    simp only [Option.getD_some] at hm
    have hmem : (n, l) ∈ g := alookup_mem h
    refine List.mem_append_right _ (List.mem_flatten.mpr ⟨l, ?_, hm⟩)
    exact List.mem_map.mpr ⟨(n, l), hmem, rfl⟩

theorem nodup_subset_length_le (l u : List FNode) (hn : l.Nodup)
    (hsub : ∀ x ∈ l, x ∈ u) : l.length ≤ u.length := by
  classical
  calc l.length = l.toFinset.card := (List.toFinset_card_of_nodup hn).symm
    _ ≤ u.toFinset.card :=
        Finset.card_le_card fun x hx =>
          List.mem_toFinset.mpr (hsub x (List.mem_toFinset.mp hx))
    _ ≤ u.length := u.toFinset_card_le

theorem addNew_spec (ms : List FNode) : ∀ sel ts : List FNode,
    ∃ d : List FNode,
      (addNew sel ts ms).1 = sel ++ d ∧
      (addNew sel ts ms).2 = ts ++ d ∧
      (∀ x ∈ d, x ∈ ms) ∧
      (∀ m ∈ ms, m ∈ sel ∨ m ∈ d) ∧
      (sel.Nodup → (sel ++ d).Nodup) := by
  induction ms with
  | nil =>
    intro sel ts
    exact ⟨[], by simp [addNew], by simp [addNew], by simp, by simp, by simp⟩
  | cons m ms ih =>
    intro sel ts
    by_cases hm : m ∈ sel
    · obtain ⟨d, h1, h2, h3, h4, h5⟩ := ih sel ts
      refine ⟨d, ?_, ?_, ?_, ?_, h5⟩
      · rw [show addNew sel ts (m :: ms) = addNew sel ts ms by
          simp [addNew, hm]]
        exact h1
      · rw [show addNew sel ts (m :: ms) = addNew sel ts ms by
          simp [addNew, hm]]
        exact h2
      · exact fun x hx => List.mem_cons_of_mem m (h3 x hx)
      · intro x hx
        rcases List.mem_cons.mp hx with rfl | hx
        · exact Or.inl hm
        · exact h4 x hx
    · obtain ⟨d, h1, h2, h3, h4, h5⟩ := ih (sel ++ [m]) (ts ++ [m])
      have heq : addNew sel ts (m :: ms) = addNew (sel ++ [m]) (ts ++ [m]) ms := by
        simp [addNew, hm]
      refine ⟨m :: d, ?_, ?_, ?_, ?_, ?_⟩
      · rw [heq, h1, List.append_assoc]; rfl
      · rw [heq, h2, List.append_assoc]; rfl
      · intro x hx
        rcases List.mem_cons.mp hx with rfl | hx
        · exact List.mem_cons_self _ _
        · exact List.mem_cons_of_mem m (h3 x hx)
      · intro x hx
        rcases List.mem_cons.mp hx with rfl | hx
        · exact Or.inr (List.mem_cons_self _ _)
        · rcases h4 x hx with hs | hd
          · rcases List.mem_append.mp hs with hs | hs
            · exact Or.inl hs
            · simp only [List.mem_singleton] at hs
              exact Or.inr (hs ▸ List.mem_cons_self _ _)
          · exact Or.inr (List.mem_cons_of_mem m hd)
      · intro hnodup
        have : ((sel ++ [m]) ++ d).Nodup := by
          apply h5
          rw [List.nodup_append]
          exact ⟨hnodup, List.nodup_singleton m,
            fun a ha ham => hm (List.mem_singleton.mp ham ▸ ha)⟩
        rw [List.append_assoc] at this
        exact this

theorem searchLoop_post (g : List (FNode × List FNode)) (ends : List FNode) :
    ∀ (fuel : ℕ) (sel ts : List FNode),
      LoopInv g ends sel ts →
      ts.length + 2 * ((pathUniverse g ends).length - sel.length) < fuel →
      (∀ n ∈ sel, n ∈ searchLoop g fuel sel ts) ∧
      (∀ n ∈ searchLoop g fuel sel ts, Reach g ends n) ∧
      (∀ n ∈ searchLoop g fuel sel ts, ∀ m ∈ selOf g n,
        m ∈ searchLoop g fuel sel ts) := by
  intro fuel
  induction fuel with
  | zero => intro sel ts _ h; exact absurd h (Nat.not_lt_zero _)
  | succ fuel ih =>
    intro sel ts hinv hmeas
    cases hlast : ts.getLast? with
    | none =>
      have hts : ts = [] := List.getLast?_eq_none_iff.mp hlast
      have hr : searchLoop g (fuel + 1) sel ts = sel := by
        simp [searchLoop, hlast]
      rw [hr]
      subst hts
      exact ⟨fun n hn => hn, hinv.sound,
        fun n hn => hinv.processed n hn (by simp)⟩
    | some node =>
      have hdecomp : ts.dropLast ++ [node] = ts :=
        List.dropLast_append_getLast? node (Option.mem_def.mpr hlast)
      obtain ⟨d, hd1, hd2, hd3, hd4, hd5⟩ :=
        addNew_spec (selOf g node) sel ts.dropLast
      have hnode_sel : node ∈ sel :=
        hinv.stack_sub node (by rw [← hdecomp]; simp)
      have haddNew : addNew sel ts.dropLast (selOf g node) =
          (sel ++ d, ts.dropLast ++ d) := by
        rw [← hd1, ← hd2]
      have hr : searchLoop g (fuel + 1) sel ts =
          searchLoop g fuel (sel ++ d) (ts.dropLast ++ d) := by
        simp only [searchLoop, hlast]
        rw [haddNew]
      rw [hr]
      have hinv' : LoopInv g ends (sel ++ d) (ts.dropLast ++ d) := by
        refine ⟨hd5 hinv.nodup, ?_, ?_, ?_, ?_⟩
        · intro n hn
          rcases List.mem_append.mp hn with hn | hn
          · exact hinv.inU n hn
          · exact selOf_subset_universe g ends node n (hd3 n hn)
        · intro n hn
          rcases List.mem_append.mp hn with hn | hn
          · exact List.mem_append_left d
              (hinv.stack_sub n (by rw [← hdecomp]; exact List.mem_append_left _ hn))
          · exact List.mem_append_right sel hn
        · intro n hn hnot m hm
          rcases List.mem_append.mp hn with hsel | hdmem
          · by_cases hne : n = node
            · subst hne
              rcases hd4 m hm with hs | hd
              · exact List.mem_append_left d hs
              · exact List.mem_append_right sel hd
            · have hnot_ts : n ∉ ts := by
                intro hts
                rw [← hdecomp] at hts
                rcases List.mem_append.mp hts with hts | hts
                · exact hnot (List.mem_append_left d hts)
                · simp only [List.mem_singleton] at hts
                  exact hne hts
              exact List.mem_append_left d
                (hinv.processed n hsel hnot_ts m hm)
          · exact absurd (List.mem_append_right ts.dropLast hdmem) hnot
        · intro n hn
          rcases List.mem_append.mp hn with hn | hn
          · exact hinv.sound n hn
          · exact Reach.step (hinv.sound node hnode_sel) (hd3 n hn)
      have hlen_ts : ts.length = ts.dropLast.length + 1 := by
        conv_lhs => rw [← hdecomp]
        simp
      have hsel_le : (sel ++ d).length ≤ (pathUniverse g ends).length :=
        nodup_subset_length_le _ _ hinv'.nodup hinv'.inU
      have hmeas' : (ts.dropLast ++ d).length +
          2 * ((pathUniverse g ends).length - (sel ++ d).length) < fuel := by
        rw [hlen_ts] at hmeas
        simp only [List.length_append] at *
        omega
      obtain ⟨mono, hsound, hclosed⟩ :=
        ih (sel ++ d) (ts.dropLast ++ d) hinv' hmeas'
      exact ⟨fun n hn => mono n (List.mem_append_left d hn), hsound, hclosed⟩

theorem initPath_spec (ends : List FNode) : ∀ sel ts : List FNode,
    (ends.foldl
      (fun p n => (if n ∈ p.1 then p.1 else p.1 ++ [n], p.2 ++ [n]))
      (sel, ts)).2 = ts ++ ends ∧
    (sel.Nodup →
      (ends.foldl
        (fun p n => (if n ∈ p.1 then p.1 else p.1 ++ [n], p.2 ++ [n]))
        (sel, ts)).1.Nodup) ∧
    (∀ x, x ∈ (ends.foldl
        (fun p n => (if n ∈ p.1 then p.1 else p.1 ++ [n], p.2 ++ [n]))
        (sel, ts)).1 ↔ x ∈ sel ∨ x ∈ ends) := by
  induction ends with
  | nil => intro sel ts; simp
  | cons e ends ih =>
    intro sel ts
    simp only [List.foldl_cons]
    by_cases he : e ∈ sel
    · rw [if_pos he]
      obtain ⟨h1, h2, h3⟩ := ih sel (ts ++ [e])
      refine ⟨by rw [h1, List.append_assoc]; rfl, h2, ?_⟩
      intro x
      rw [h3 x]
      constructor
      · rintro (hx | hx)
        · exact Or.inl hx
        · exact Or.inr (List.mem_cons_of_mem e hx)
      · rintro (hx | hx)
        · exact Or.inl hx
        · rcases List.mem_cons.mp hx with rfl | hx
          · exact Or.inl he
          · exact Or.inr hx
    · rw [if_neg he]
      obtain ⟨h1, h2, h3⟩ := ih (sel ++ [e]) (ts ++ [e])
      refine ⟨by rw [h1, List.append_assoc]; rfl, ?_, ?_⟩
      · intro hnodup
        apply h2
        rw [List.nodup_append]
        exact ⟨hnodup, List.nodup_singleton e,
          fun a ha hae => he (List.mem_singleton.mp hae ▸ ha)⟩
      · intro x
        rw [h3 x]
        constructor
        · rintro (hx | hx)
          · rcases List.mem_append.mp hx with hx | hx
            · exact Or.inl hx
            · simp only [List.mem_singleton] at hx
              exact Or.inr (hx ▸ List.mem_cons_self _ _)
          · exact Or.inr (List.mem_cons_of_mem e hx)
        · rintro (hx | hx)
          · exact Or.inl (List.mem_append_left _ hx)
          · rcases List.mem_cons.mp hx with rfl | hx
            · exact Or.inl (List.mem_append_right _ (List.mem_singleton_self x))
            · exact Or.inr hx

theorem reach_in_closed (g : List (FNode × List FNode)) (ends : List FNode)
    (S : FNode → Prop) (hbase : ∀ n ∈ ends, S n)
    (hstep : ∀ n, S n → ∀ m ∈ selOf g n, S m) :
    ∀ n, Reach g ends n → S n := by
  intro n h
  induction h with
  | base hm => exact hbase _ hm
  | step _ hm ih => exact hstep _ ih _ hm

/-- C6: for every flowgraph and every end-node set, `get_flowgraph_path`
returns exactly the least node set containing the end nodes and closed
under following contained nodes' selection edges backward; on the 3-node
chain `A → B → C` with `B` fanned out and `C` selecting `B` index 0, the
result holds `A`, the winning `B` and `C` and excludes the losing `B`. -/
theorem get_flowgraph_path_least (g : List (FNode × List FNode))
    (ends : List FNode) :
    (∀ n ∈ ends, n ∈ get_flowgraph_path g ends) ∧
    (∀ n ∈ get_flowgraph_path g ends, ∀ m ∈ selOf g n,
      m ∈ get_flowgraph_path g ends) ∧
    (∀ S : FNode → Prop, (∀ n ∈ ends, S n) →
      (∀ n, S n → ∀ m ∈ selOf g n, S m) →
      ∀ n ∈ get_flowgraph_path g ends, S n) ∧
    (("A", "0") ∈ get_flowgraph_path chainGraph [("C", "0")] ∧
     ("B", "0") ∈ get_flowgraph_path chainGraph [("C", "0")] ∧
     ("C", "0") ∈ get_flowgraph_path chainGraph [("C", "0")] ∧
     ("B", "1") ∉ get_flowgraph_path chainGraph [("C", "0")]) := by
  obtain ⟨hts, hnodup, hmem⟩ := initPath_spec ends [] []
  have hinv : LoopInv g ends (initPath ends).1 (initPath ends).2 := by
    refine ⟨hnodup List.nodup_nil, ?_, ?_, ?_, ?_⟩
    · intro n hn
      rcases (hmem n).mp hn with hn | hn
      · simp at hn
      · exact List.mem_append_left _ hn
    · intro n hn
      rw [initPath] at hn ⊢
      rw [hts] at hn
      exact (hmem n).mpr (Or.inr (by simpa using hn))
    · intro n hn hnot
      exact absurd (by
        rw [initPath, hts]
        simpa using (Or.resolve_left ((hmem n).mp hn) (by simp)) :
          n ∈ (initPath ends).2) hnot
    · intro n hn
      exact Reach.base (Or.resolve_left ((hmem n).mp hn) (by simp))
  have hmeas : (initPath ends).2.length +
      2 * ((pathUniverse g ends).length - (initPath ends).1.length) <
      pathFuel g ends := by
    rw [initPath, hts]
    simp only [List.nil_append, List.length_append, pathFuel, pathUniverse]
    simp only [List.length_append] at *
    omega
  obtain ⟨mono, hsound, hclosed⟩ :=
    searchLoop_post g ends (pathFuel g ends) (initPath ends).1
      (initPath ends).2 hinv hmeas
  refine ⟨?_, hclosed, ?_, by decide, by decide, by decide, by decide⟩
  · intro n hn
    exact mono n ((hmem n).mpr (Or.inr hn))
  · intro S hbase hstep n hn
    exact reach_in_closed g ends S hbase hstep n (hsound n hn)

/-- Witness for C6 on the concrete chain graph. -/
theorem get_flowgraph_path_least_witness :
    ("C", "0") ∈ get_flowgraph_path chainGraph [("C", "0")] :=
  (get_flowgraph_path_least chainGraph [("C", "0")]).1 ("C", "0") (by decide)

/-! ### setup trace claims C8 and C9 -/

/-- C8: a configured delay model other than nldm makes `setup` log an
error message, and nothing more: the trace still contains the later
node-scoped configuration — the log-scan regexes, every report binding,
the corner variables and the PDK layer requirements. -/
theorem setup_delaymodel_error_continues (cfg : Cfg) (mode : String)
    (hdm : cfg.delaymodel ≠ "nldm") :
    Effect.logError (cfg.delaymodel ++
        " delay model is not supported by openroad, only nldm") ∈
      setupEffects cfg mode ∧
    Effect.set (taskKey cfg ++ ["regex", "warnings"])
        (SCVal.s "^\\[WARNING|^Warning") true false ∈ setupEffects cfg mode ∧
    Effect.set (taskKey cfg ++ ["regex", "errors"]) (SCVal.s "^\\[ERROR")
        true false ∈ setupEffects cfg mode ∧
    (∀ m ∈ report_metrics,
      Effect.set (taskKey cfg ++ ["report", m])
        (SCVal.s "reports/metrics.json") true true ∈ setupEffects cfg mode) ∧
    Effect.set (taskKey cfg ++ ["var", "timing_corners"])
        (SCVal.ls cfg.corners) true false ∈ setupEffects cfg mode ∧
    Effect.add (taskKey cfg ++ ["require"])
        (SCVal.s (joinComma ["pdk", cfg.pdkname, "var", "openroad",
          "rclayer_signal", cfg.stackup])) ∈ setupEffects cfg mode := by
  have h1 : Effect.logError (cfg.delaymodel ++
      " delay model is not supported by openroad, only nldm") ∈
      setupDelayCheck cfg := by
    simp [setupDelayCheck, hdm]
  have h2 : Effect.set (taskKey cfg ++ ["regex", "warnings"])
      (SCVal.s "^\\[WARNING|^Warning") true false ∈ setupRegexes cfg := by
    simp [setupRegexes]
  have h3 : Effect.set (taskKey cfg ++ ["regex", "errors"])
      (SCVal.s "^\\[ERROR") true false ∈ setupRegexes cfg := by
    simp [setupRegexes]
  have h4 : ∀ m ∈ report_metrics,
      Effect.set (taskKey cfg ++ ["report", m])
        (SCVal.s "reports/metrics.json") true true ∈ setupReports cfg :=
    fun m hm => List.mem_map.mpr ⟨m, hm, rfl⟩
  have h5 : Effect.set (taskKey cfg ++ ["var", "timing_corners"])
      (SCVal.ls cfg.corners) true false ∈ setupCornerVars cfg := by
    simp [setupCornerVars]
  have h6 : Effect.add (taskKey cfg ++ ["require"])
      (SCVal.s (joinComma ["pdk", cfg.pdkname, "var", "openroad",
        "rclayer_signal", cfg.stackup])) ∈ setupPdkRequires cfg :=
    List.mem_map.mpr ⟨"rclayer_signal", by simp, rfl⟩
  refine ⟨?_, ?_, ?_, fun m hm => ?_, ?_, ?_⟩ <;>
    simp only [setupEffects, List.mem_append]
  · tauto
  · tauto
  · tauto
  · have := h4 m hm
    tauto
  · tauto
  · tauto

/-- Witness for C8 at the concrete ccs-delay-model configuration. -/
theorem setup_delaymodel_error_continues_witness :
    Effect.logError (cfgEx.delaymodel ++
        " delay model is not supported by openroad, only nldm") ∈
      setupEffects cfgEx "batch" ∧
    Effect.set (taskKey cfgEx ++ ["regex", "warnings"])
        (SCVal.s "^\\[WARNING|^Warning") true false ∈
      setupEffects cfgEx "batch" ∧
    Effect.set (taskKey cfgEx ++ ["regex", "errors"]) (SCVal.s "^\\[ERROR")
        true false ∈ setupEffects cfgEx "batch" ∧
    (∀ m ∈ report_metrics,
      Effect.set (taskKey cfgEx ++ ["report", m])
        (SCVal.s "reports/metrics.json") true true ∈
      setupEffects cfgEx "batch") ∧
    Effect.set (taskKey cfgEx ++ ["var", "timing_corners"])
        (SCVal.ls cfgEx.corners) true false ∈ setupEffects cfgEx "batch" ∧
    Effect.add (taskKey cfgEx ++ ["require"])
        (SCVal.s (joinComma ["pdk", cfgEx.pdkname, "var", "openroad",
          "rclayer_signal", cfgEx.stackup])) ∈ setupEffects cfgEx "batch" :=
  setup_delaymodel_error_continues cfgEx "batch" (by decide)

/-- C9: the tie-cell table holds the identical tiehigh pair twice and no
tielow pair; the loop's manifest effect equals running its body twice on
that single tiehigh pair, and every requirement it adds names one of the
two tiehigh keypaths — never a tielow one. -/
theorem tie_loop_duplicate_pair (cfg : Cfg) :
    tiePairs = [("openroad_tiehigh_cell", "openroad_tiehigh_port"),
                ("openroad_tiehigh_cell", "openroad_tiehigh_port")] ∧
    tieLoop cfg =
      tieBody cfg ("openroad_tiehigh_cell", "openroad_tiehigh_port") ++
      tieBody cfg ("openroad_tiehigh_cell", "openroad_tiehigh_port") ∧
    ∀ e ∈ tieLoop cfg,
      e = Effect.add (taskKey cfg ++ ["require"])
            (SCVal.s (joinComma ["library", mainlib cfg, "option", "var",
              "openroad", "openroad_tiehigh_port"])) ∨
      e = Effect.add (taskKey cfg ++ ["require"])
            (SCVal.s (joinComma ["library", mainlib cfg, "option", "var",
              "openroad", "openroad_tiehigh_cell"])) := by
  refine ⟨rfl, by simp [tieLoop, tiePairs], ?_⟩
  intro e he
  simp only [tieLoop, tiePairs, List.map_cons, List.map_nil,
    List.flatten_cons, List.flatten_nil, List.append_nil,
    List.mem_append] at he
  rcases he with he | he <;>
  · rw [tieBody] at he
    simp only [List.mem_append] at he
    rcases he with he | he <;> split_ifs at he <;> simp at he <;> simp [he]

/-- Witness for C9: the port requirement added at the concrete
configuration is one of the two tiehigh requirements. -/
theorem tie_loop_duplicate_pair_witness :
    Effect.add (taskKey cfgEx ++ ["require"])
        (SCVal.s (joinComma ["library", mainlib cfgEx, "option", "var",
          "openroad", "openroad_tiehigh_port"])) =
      Effect.add (taskKey cfgEx ++ ["require"])
        (SCVal.s (joinComma ["library", mainlib cfgEx, "option", "var",
          "openroad", "openroad_tiehigh_port"])) ∨
    Effect.add (taskKey cfgEx ++ ["require"])
        (SCVal.s (joinComma ["library", mainlib cfgEx, "option", "var",
          "openroad", "openroad_tiehigh_port"])) =
      Effect.add (taskKey cfgEx ++ ["require"])
        (SCVal.s (joinComma ["library", mainlib cfgEx, "option", "var",
          "openroad", "openroad_tiehigh_cell"])) :=
  (tie_loop_duplicate_pair cfgEx).2.2 _ (by decide)

end SC
